import Mathlib

/-!
# Verification of the blinksocks-gui subprocess service manager

Shallow embedding of `src/core/src/utils/service_manager.js`:

* the message channel of one forked worker (the `subprocess.on('message', ...)`
  handler and its `messageQueue`),
* the correlation engine (`send` / `scanQueue` / `consume`),
* the service registry (`start`, `stop`, `getServices`, `getServiceInfo`,
  `getMetrics`) over the global `subprocesses` map, whose values are either a
  live process handle or `null` (a tombstone).

Payloads are opaque (`α`).  The worker's eventual reply to one `invoke` is
modelled by a `WorkerReply` value (resolution with a payload, or rejection
with an error payload); a worker that never replies corresponds to no step
being taken, which none of the verified claims concern.
-/

namespace ServiceManager

/-- A message that passed the channel's `typeof message !== 'object'` check and
was pushed onto `messageQueue`.  `objMsg t p` is a well-formed structured
message `{ type: t, payload: p }` with a string `type` field.  `objNoType`
is a value of JS type `'object'` that lacks a string `type` field (for
example `null`, or an object without `type`): reading `message.type` yields
`undefined` (or throws), so `message.type.indexOf(...)` in `scanQueue`
throws a `TypeError`. -/
inductive QMsg (α : Type) where
  | objMsg (type : String) (payload : α)
  | objNoType
deriving DecidableEq, Repr

/-- A raw inbound value from the worker, before the channel's `typeof` check. -/
inductive Inbound (α : Type) where
  | nonObject
  | obj (m : QMsg α)
deriving DecidableEq, Repr

/-- The `subprocess.on('message', ...)` handler: a non-object message is
dropped, every other message is appended to the queue. -/
def onMessage {α : Type} (msg : Inbound α) (q : List (QMsg α)) : List (QMsg α) :=
  match msg with
  | .nonObject => q
  | .obj m => q ++ [m]

/-- Outcome of one run of `scanQueue` inside `send`: `none` is the `-1`
return (no related message found), `resolveAt i p` / `rejectAt i p` are the
`return i` after calling `resolve(payload)` / `reject(Error(payload))`, and
`crash` is the `TypeError` thrown by `message.type.indexOf` on a queued
message without a string `type` field. -/
inductive ScanRes (α : Type) where
  | none
  | resolveAt (i : Nat) (p : α)
  | rejectAt (i : Nat) (p : α)
  | crash
deriving DecidableEq, Repr

/-- JS `ty.indexOf(t) === 0` on strings: the first occurrence of `t` in `ty`
is at position 0, i.e. `t` is a prefix of `ty`. -/
def indexOfIsZero (ty t : String) : Bool :=
  t.data.isPrefixOf ty.data

/-- The `for` loop of `scanQueue`, scanning the queue from index `i`:
`message.type.indexOf(action.type) === 0` is the prefix test, followed by
the two exact-equality tests against `action.type + '/error'` and
`action.type + '/done'`. -/
def scanQueueFrom {α : Type} (t : String) (i : Nat) : List (QMsg α) → ScanRes α
  | [] => .none
  | .objNoType :: _ => .crash
  | .objMsg ty p :: rest =>
    if indexOfIsZero ty t then
      if ty = t ++ "/error" then .rejectAt i p
      else if ty = t ++ "/done" then .resolveAt i p
      else scanQueueFrom t (i + 1) rest
    else scanQueueFrom t (i + 1) rest

/-- `scanQueue` for an outstanding request of type `t`. -/
def scanQueue {α : Type} (t : String) (q : List (QMsg α)) : ScanRes α :=
  scanQueueFrom t 0 q

/-- Outcome of one tick of the `consume` loop in `send`: either no related
message was found and the scan is rescheduled with the queue unchanged
(`pending`), or the found message is spliced out of the queue after the
promise was settled, or the scan threw. -/
inductive ConsumeRes (α : Type) where
  | pending (q : List (QMsg α))
  | resolved (p : α) (q : List (QMsg α))
  | rejected (p : α) (q : List (QMsg α))
  | crash
deriving DecidableEq, Repr

/-- One tick of `consume`: run `scanQueue`; on `-1` keep the queue and
reschedule, otherwise `messageQueue.splice(index, 1)`. -/
def consume {α : Type} (t : String) (q : List (QMsg α)) : ConsumeRes α :=
  match scanQueue t q with
  | .none => .pending q
  | .resolveAt i p => .resolved p (q.eraseIdx i)
  | .rejectAt i p => .rejected p (q.eraseIdx i)
  | .crash => .crash

/-- A queued message is well formed when it has a string `type` field. -/
def isWF {α : Type} : QMsg α → Bool
  | .objMsg _ _ => true
  | .objNoType => false

/-- Every message of the queue is well formed. -/
def wfQ {α : Type} (q : List (QMsg α)) : Prop :=
  ∀ m ∈ q, isWF m = true

instance {α : Type} [DecidableEq α] (q : List (QMsg α)) : Decidable (wfQ q) :=
  List.decidableBAll _ q

/-- The message at a position claims the request of type `t` when its type is
exactly `t ++ "/done"` or `t ++ "/error"`. -/
def claims {α : Type} (t : String) : QMsg α → Bool
  | .objMsg ty _ => ty = t ++ "/done" ∨ ty = t ++ "/error"
  | .objNoType => false

example : consume "start" [QMsg.objMsg "startAll/done" (0 : Nat),
    QMsg.objMsg "start/done" 7] =
    .resolved 7 [QMsg.objMsg "startAll/done" 0] := by decide

example : consume "start" [QMsg.objMsg "startAll/done" (0 : Nat)] =
    .pending [QMsg.objMsg "startAll/done" 0] := by decide

example : consume "start" [QMsg.objMsg "other" (1 : Nat),
    QMsg.objMsg "start/error" 5, QMsg.objMsg "start/done" 6] =
    .rejected 5 [QMsg.objMsg "other" 1, QMsg.objMsg "start/done" 6] := by decide

example : consume "start" [QMsg.objNoType (α := Nat)] = .crash := by decide

/-! ## The service registry (`module.exports` of `service_manager.js`) -/

/-- Identity of one forked worker process (the `ChildProcess` returned by
`fork()`); handles are numbered in spawn order by the registry model. -/
abbrev HandleId := Nat

/-- A value stored in the `subprocesses` map: either a live process handle
(`active`) or the `null` written by a successful `stop` (`tomb`). -/
inductive Entry where
  | active (h : HandleId)
  | tomb
deriving DecidableEq, Repr

/-- The `subprocesses` map (JS `Map`): association list in insertion order,
plus the spawn counter giving fresh handle identities. -/
structure Registry where
  entries : List (String × Entry)
  next : HandleId
deriving DecidableEq, Repr

/-- JS `Map.prototype.get`: `Option.none` models `undefined`. -/
def mapGet (id : String) : List (String × Entry) → Option Entry
  | [] => none
  | (k, e) :: rest => if k = id then some e else mapGet id rest

/-- JS `Map.prototype.set`: updates an existing key in place (keeping its
insertion position) or appends a new key at the end. -/
def mapSet (id : String) (e : Entry) : List (String × Entry) → List (String × Entry)
  | [] => [(id, e)]
  | (k, e') :: rest => if k = id then (k, e) :: rest else (k, e') :: mapSet id e rest

/-- JS `Map.prototype.delete`: removes the key if present. -/
def mapDelete (id : String) : List (String × Entry) → List (String × Entry)
  | [] => []
  | (k, e) :: rest => if k = id then rest else (k, e) :: mapDelete id rest

/-- The eventual settlement of one `invoke(method, args)` call on a handle:
the worker replied `method/done` with a payload, or `method/error` with an
error payload. -/
inductive WorkerReply (α : Type) where
  | done (p : α)
  | error (e : α)
deriving DecidableEq, Repr

/-- How each worker answers each method, per handle.  Used by the registry
operations that `await` an `invoke`. -/
def Worker (α : Type) := HandleId → String → WorkerReply α

/-- Errors thrown by registry operations: the rejection of a worker `invoke`
(`Error(payload)`) or the `` Error(`service(${id}) is not found`) `` of
`stop`. -/
inductive Err (α : Type) where
  | worker (e : α)
  | notFound (id : String)
deriving DecidableEq, Repr

/-- First half of `start`, up to the `await`: `let sub = subprocesses.get(id);
if (!sub) { sub = fork(); subprocesses.set(id, sub); }`.  Both `undefined`
(absent) and `null` (tombstone) are falsy, so both spawn a fresh handle. -/
def startPhase1 (id : String) (st : Registry) : Registry :=
  match mapGet id st.entries with
  | some (.active _) => st
  | _ => { entries := mapSet id (.active st.next) st.entries, next := st.next + 1 }

/-- Second half of `start`: `try { await sub.invoke('start', config) } catch
(err) { subprocesses.delete(id); throw err; }`.  `reply` is the settlement
of the `invoke('start', config)` call. -/
def startPhase2 {α : Type} (reply : WorkerReply α) (id : String) (st : Registry) :
    Registry × Except (Err α) Unit :=
  match reply with
  | .done _ => (st, .ok ())
  | .error e => ({ st with entries := mapDelete id st.entries }, .error (.worker e))

/-- `start(id, config)` run to completion without interleaving. -/
def start {α : Type} (reply : WorkerReply α) (id : String) (st : Registry) :
    Registry × Except (Err α) Unit :=
  startPhase2 reply id (startPhase1 id st)

/-- `stop(id)`.  Returns the registry afterwards, the handle whose process
was killed (if any), and the promise's settlement.  When the entry is a
live handle: `await sub.invoke('stop')`; if that rejects the exception
propagates before `sub.getProcess().kill()` and `subprocesses.set(id, null)`
run.  Otherwise (`undefined` or `null`, both falsy) throws not-found. -/
def stop {α : Type} (reply : WorkerReply α) (id : String) (st : Registry) :
    Registry × Option HandleId × Except (Err α) Unit :=
  match mapGet id st.entries with
  | some (.active h) =>
    match reply with
    | .done _ => ({ st with entries := mapSet id .tomb st.entries }, some h, .ok ())
    | .error e => (st, none, .error (.worker e))
  | _ => (st, none, .error (.notFound id))

/-- The three service status constants of `../constants`. -/
inductive Status where
  | INIT
  | RUNNING
  | STOPPED
deriving DecidableEq, Repr

/-- Result of `getServiceInfo`: the `status` field plus, for a running
service, the fields spread from the worker's `getStatus` reply
(`{ status: SERVICE_STATUS_RUNNING, ...(await sub.invoke('getStatus')) }`). -/
structure SvcInfo (α : Type) where
  status : Status
  extra : Option α
deriving DecidableEq, Repr

/-- `await sub.invoke(m)` on handle `h`, as an `Except`: the resolution
payload, or the rejection wrapped as a thrown error. -/
def invokeRes {α : Type} (w : Worker α) (h : HandleId) (m : String) : Except (Err α) α :=
  match w h m with
  | .done p => .ok p
  | .error e => .error (.worker e)

/-- `getServiceInfo(id)`: truthy entry (live handle) → RUNNING merged with
the `getStatus` reply (rejecting if that invoke rejects); `undefined` →
INIT; `null` → STOPPED. -/
def getServiceInfo {α : Type} (w : Worker α) (id : String) (st : Registry) :
    Except (Err α) (SvcInfo α) :=
  match mapGet id st.entries with
  | some (.active h) => (invokeRes w h "getStatus").map fun p => ⟨.RUNNING, some p⟩
  | some .tomb => .ok ⟨.STOPPED, none⟩
  | none => .ok ⟨.INIT, none⟩

/-- The `for (const [id] of subprocesses)` loop of `getServices`, iterating
over the map's entries in insertion order and building
`services[id] = await this.getServiceInfo(id)`; the first rejection
propagates and aborts the loop. -/
def getServicesList {α : Type} (w : Worker α) (st : Registry) :
    List (String × Entry) → Except (Err α) (List (String × SvcInfo α))
  | [] => .ok []
  | kv :: rest =>
    match getServiceInfo w kv.1 st with
    | .ok info => (getServicesList w st rest).map fun l => (kv.1, info) :: l
    | .error e => .error e

/-- `getServices()`. -/
def getServices {α : Type} (w : Worker α) (st : Registry) :
    Except (Err α) (List (String × SvcInfo α)) :=
  getServicesList w st st.entries

/-- The method name `invoke`d by `getMetrics` for each metrics kind (the
`switch (type)` arms); `Option.none` for the `default: break` arm. -/
def metricsMethod : String → Option String
  | "cpu" => some "getCPUMetrics"
  | "memory" => some "getMemoryMetrics"
  | "speed" => some "getSpeedMetrics"
  | "connections" => some "getConnectionsMetrics"
  | "traffic" => some "getTrafficMetrics"
  | _ => none

/-- Result of `getMetrics`: the `return []` of the falsy branch (`empty`),
a worker payload (`val`), or the implicit `undefined` returned when an
active service is asked for an unknown kind (`undef`). -/
inductive MetricsRes (α : Type) where
  | empty
  | val (p : α)
  | undef
deriving DecidableEq, Repr

/-- `getMetrics(id, type)`: live handle → dispatch on the kind and `await`
the corresponding invoke; otherwise `return []`. -/
def getMetrics {α : Type} (w : Worker α) (id : String) (kind : String) (st : Registry) :
    Except (Err α) (MetricsRes α) :=
  match mapGet id st.entries with
  | some (.active h) =>
    match metricsMethod kind with
    | some m => (invokeRes w h m).map MetricsRes.val
    | none => .ok .undef
  | _ => .ok .empty

/-- The initial, empty `subprocesses` map. -/
def emptyRegistry : Registry := { entries := [], next := 0 }

/-! ## Operation traces and the per-id lifecycle -/

/-- One completed call of a registry operation, with the settlement of the
worker `invoke` it awaits (for the state-changing operations). -/
inductive Op (α : Type) where
  | opStart (reply : WorkerReply α) (id : String)
  | opStop (reply : WorkerReply α) (id : String)
  | opGetServices
  | opGetServiceInfo (id : String)
  | opGetMetrics (id kind : String)

/-- The registry state after one completed operation.  The read-only
operations never write the `subprocesses` map. -/
def applyOp {α : Type} (op : Op α) (st : Registry) : Registry :=
  match op with
  | .opStart r id => (start r id st).1
  | .opStop r id => (stop r id st).1
  | _ => st

/-- Every registry state observable at an `await` boundary while the trace
runs (operations sequential, no interleaving), starting from `st`.  A
`start` makes its phase-1 state — fresh handle recorded, `start` handshake
still outstanding — observable before its final state; the other
operations only change the map in their last synchronous segment (or not
at all). -/
def fullChain {α : Type} : List (Op α) → Registry → List Registry
  | [], st => [st]
  | .opStart r id :: rest, st => st :: startPhase1 id st :: fullChain rest (start r id st).1
  | op :: rest, st => st :: fullChain rest (applyOp op st)

/-- The final registry state of a trace. -/
def runTrace {α : Type} : List (Op α) → Registry → Registry
  | [], st => st
  | op :: rest, st => runTrace rest (applyOp op st)

/-- The ids passed to `start` somewhere in the trace. -/
def startIds {α : Type} : List (Op α) → List String
  | [] => []
  | .opStart _ id :: rest => id :: startIds rest
  | _ :: rest => startIds rest

/-- The per-id lifecycle state the spec names: absent (key never inserted /
deleted), active (live handle), tombstoned (`null` value). -/
inductive EState where
  | absent
  | active (h : HandleId)
  | tomb
deriving DecidableEq, Repr

/-- The lifecycle state of one ServiceId in a registry. -/
def viewId (id : String) (st : Registry) : EState :=
  match mapGet id st.entries with
  | none => .absent
  | some (.active h) => .active h
  | some .tomb => .tomb

/-- The keys of the `subprocesses` map, in insertion order. -/
def keys (st : Registry) : List String :=
  st.entries.map Prod.fst

/-- Every live handle recorded in the map was allocated below the spawn
counter (holds in every reachable registry state). -/
def handlesBound (st : Registry) : Prop :=
  ∀ id h, mapGet id st.entries = some (.active h) → h < st.next

/-- The lifecycle-transition safety relation of the spec: a step never takes
an id from tombstoned directly to absent. -/
def noTombToAbsent (a b : EState) : Prop :=
  ¬(a = EState.tomb ∧ b = EState.absent)

/-- The map holds at most one entry — hence at most one live handle — for
the id. -/
def atMostOneEntry (id : String) (st : Registry) : Prop :=
  (st.entries.filter fun kv => kv.1 = id).length ≤ 1

/-! ## Lemmas about the correlation scan -/

theorem claims_objMsg_iff {α : Type} (t ty : String) (p : α) :
    claims t (QMsg.objMsg ty p) = true ↔ ty = t ++ "/done" ∨ ty = t ++ "/error" := by
  simp [claims]

theorem indexOfIsZero_of_append (t s : String) : indexOfIsZero (t ++ s) t = true := by
  simp only [indexOfIsZero, List.isPrefixOf_iff_prefix, String.data_append]
  exact List.prefix_append _ _

theorem scanQueueFrom_ne_crash {α : Type} (t : String) (q : List (QMsg α)) (hwf : wfQ q)
    (i : Nat) : scanQueueFrom t i q ≠ .crash := by
  induction q generalizing i with
  | nil => simp [scanQueueFrom]
  | cons m rest ih =>
    have hrest : wfQ rest := fun m' hm' => hwf m' (List.mem_cons_of_mem _ hm')
    match m with
    | .objNoType => exact absurd (hwf .objNoType (List.mem_cons_self _ _)) (by simp [isWF])
    | .objMsg ty p =>
      simp only [scanQueueFrom]
      split
      · split
        · simp
        · split
          · simp
          · exact ih hrest (i + 1)
      · exact ih hrest (i + 1)

theorem scanQueueFrom_none_iff {α : Type} (t : String) (q : List (QMsg α)) (hwf : wfQ q)
    (i : Nat) : scanQueueFrom t i q = .none ↔ ∀ m ∈ q, claims t m = false := by
  induction q generalizing i with
  | nil => simp [scanQueueFrom]
  | cons m rest ih =>
    have hrest : wfQ rest := fun m' hm' => hwf m' (List.mem_cons_of_mem _ hm')
    match m with
    | .objNoType => exact absurd (hwf .objNoType (List.mem_cons_self _ _)) (by simp [isWF])
    | .objMsg ty p =>
      simp only [scanQueueFrom, List.mem_cons]
      by_cases hpre : indexOfIsZero ty t = true
      · rw [if_pos hpre]
        by_cases herr : ty = t ++ "/error"
        · rw [if_pos herr]
          constructor
          · intro h; exact absurd h (by simp)
          · intro h
            have := h (QMsg.objMsg ty p) (Or.inl rfl)
            rw [claims] at this
            simp [herr] at this
        · rw [if_neg herr]
          by_cases hdone : ty = t ++ "/done"
          · rw [if_pos hdone]
            constructor
            · intro h; exact absurd h (by simp)
            · intro h
              have := h (QMsg.objMsg ty p) (Or.inl rfl)
              rw [claims] at this
              simp [hdone] at this
          · rw [if_neg hdone, ih hrest (i + 1)]
            constructor
            · intro h m' hm'
              rcases hm' with hm' | hm'
              · subst hm'; rw [claims]; simp [herr, hdone]
              · exact h m' hm'
            · intro h m' hm'
              exact h m' (Or.inr hm')
      · rw [if_neg hpre, ih hrest (i + 1)]
        have hcl : claims t (QMsg.objMsg ty p) = false := by
          rw [claims]
          simp only [decide_eq_false_iff_not]
          rintro (h | h) <;> exact hpre (h ▸ indexOfIsZero_of_append t _)
        constructor
        · intro h m' hm'
          rcases hm' with hm' | hm'
          · subst hm'; exact hcl
          · exact h m' hm'
        · intro h m' hm'
          exact h m' (Or.inr hm')

theorem scanQueueFrom_resolveAt {α : Type} (t : String) (q : List (QMsg α)) (hwf : wfQ q)
    (i j : Nat) (p : α) (h : scanQueueFrom t i q = .resolveAt j p) :
    ∃ k, j = i + k ∧ q.get? k = some (.objMsg (t ++ "/done") p) ∧
      ∀ k' m, k' < k → q.get? k' = some m → claims t m = false := by
  induction q generalizing i with
  | nil => simp [scanQueueFrom] at h
  | cons m rest ih =>
    have hrest : wfQ rest := fun m' hm' => hwf m' (List.mem_cons_of_mem _ hm')
    match m with
    | .objNoType => exact absurd (hwf .objNoType (List.mem_cons_self _ _)) (by simp [isWF])
    | .objMsg ty p' =>
      simp only [scanQueueFrom] at h
      by_cases hpre : indexOfIsZero ty t = true
      · rw [if_pos hpre] at h
        by_cases herr : ty = t ++ "/error"
        · rw [if_pos herr] at h; exact absurd h (by simp)
        · rw [if_neg herr] at h
          by_cases hdone : ty = t ++ "/done"
          · rw [if_pos hdone] at h
            refine ⟨0, ?_, ?_, ?_⟩
            · cases h; rfl
            · cases h; simp [hdone]
            · intro k' m hk' _; omega
          · rw [if_neg hdone] at h
            obtain ⟨k, hk, hget, hbefore⟩ := ih hrest (i + 1) h
            refine ⟨k + 1, by omega, by simpa using hget, ?_⟩
            intro k' m hk' hget'
            match k' with
            | 0 =>
              simp only [List.get?] at hget'
              cases hget'
              rw [claims]; simp [herr, hdone]
            | k' + 1 =>
              exact hbefore k' m (by omega) (by simpa using hget')
      · rw [if_neg hpre] at h
        obtain ⟨k, hk, hget, hbefore⟩ := ih hrest (i + 1) h
        refine ⟨k + 1, by omega, by simpa using hget, ?_⟩
        intro k' m hk' hget'
        match k' with
        | 0 =>
          simp only [List.get?] at hget'
          cases hget'
          rw [claims]
          simp only [decide_eq_false_iff_not]
          rintro (hc | hc) <;> exact hpre (hc ▸ indexOfIsZero_of_append t _)
        | k' + 1 =>
          exact hbefore k' m (by omega) (by simpa using hget')

theorem scanQueueFrom_rejectAt {α : Type} (t : String) (q : List (QMsg α)) (hwf : wfQ q)
    (i j : Nat) (p : α) (h : scanQueueFrom t i q = .rejectAt j p) :
    ∃ k, j = i + k ∧ q.get? k = some (.objMsg (t ++ "/error") p) ∧
      ∀ k' m, k' < k → q.get? k' = some m → claims t m = false := by
  induction q generalizing i with
  | nil => simp [scanQueueFrom] at h
  | cons m rest ih =>
    have hrest : wfQ rest := fun m' hm' => hwf m' (List.mem_cons_of_mem _ hm')
    match m with
    | .objNoType => exact absurd (hwf .objNoType (List.mem_cons_self _ _)) (by simp [isWF])
    | .objMsg ty p' =>
      simp only [scanQueueFrom] at h
      by_cases hpre : indexOfIsZero ty t = true
      · rw [if_pos hpre] at h
        by_cases herr : ty = t ++ "/error"
        · rw [if_pos herr] at h
          refine ⟨0, ?_, ?_, ?_⟩
          · cases h; rfl
          · cases h; simp [herr]
          · intro k' m hk' _; omega
        · rw [if_neg herr] at h
          by_cases hdone : ty = t ++ "/done"
          · rw [if_pos hdone] at h; exact absurd h (by simp)
          · rw [if_neg hdone] at h
            obtain ⟨k, hk, hget, hbefore⟩ := ih hrest (i + 1) h
            refine ⟨k + 1, by omega, by simpa using hget, ?_⟩
            intro k' m hk' hget'
            match k' with
            | 0 =>
              simp only [List.get?] at hget'
              cases hget'
              rw [claims]; simp [herr, hdone]
            | k' + 1 =>
              exact hbefore k' m (by omega) (by simpa using hget')
      · rw [if_neg hpre] at h
        obtain ⟨k, hk, hget, hbefore⟩ := ih hrest (i + 1) h
        refine ⟨k + 1, by omega, by simpa using hget, ?_⟩
        intro k' m hk' hget'
        match k' with
        | 0 =>
          simp only [List.get?] at hget'
          cases hget'
          rw [claims]
          simp only [decide_eq_false_iff_not]
          rintro (hc | hc) <;> exact hpre (hc ▸ indexOfIsZero_of_append t _)
        | k' + 1 =>
          exact hbefore k' m (by omega) (by simpa using hget')

theorem consume_ne_crash {α : Type} (t : String) (q : List (QMsg α)) (hwf : wfQ q) :
    consume t q ≠ .crash := by
  intro h
  unfold consume at h
  cases hscan : scanQueue t q <;> rw [hscan] at h <;> simp at h
  exact scanQueueFrom_ne_crash t q hwf 0 hscan

/-! ## The verified claims about the correlation engine -/

/-- C1: For every `invoke(method, args)` call on a process handle, a pending
message is claimed iff its `type` field equals `method + "/done"` (the call
then resolves with that message's payload) or `method + "/error"` (the call
then rejects with that message's payload as error detail); a message whose
type merely extends the method name (such as `startAll/done` for method
`start`) is never the claimed message, because the claimed message's type is
exactly `method + "/done"` or `method + "/error"`. -/
theorem c1_invoke_exact_type_match {α : Type} (t : String) (q : List (QMsg α)) (hwf : wfQ q) :
    (consume t q = .pending q ↔ ∀ m ∈ q, claims t m = false)
    ∧ (∀ p q', consume t q = .resolved p q' →
        ∃ i, q.get? i = some (.objMsg (t ++ "/done") p) ∧ q' = q.eraseIdx i)
    ∧ (∀ p q', consume t q = .rejected p q' →
        ∃ i, q.get? i = some (.objMsg (t ++ "/error") p) ∧ q' = q.eraseIdx i)
    ∧ consume t q ≠ .crash := by
  refine ⟨?_, ?_, ?_, consume_ne_crash t q hwf⟩
  · cases hscan : scanQueue t q with
    | none =>
      have : consume t q = .pending q := by unfold consume; rw [hscan]
      rw [this]
      simp only [true_iff]
      exact (scanQueueFrom_none_iff t q hwf 0).mp hscan
    | resolveAt i p =>
      have hres : consume t q = .resolved p (q.eraseIdx i) := by unfold consume; rw [hscan]
      rw [hres]
      refine iff_of_false (by simp) ?_
      obtain ⟨k, _, hget, _⟩ := scanQueueFrom_resolveAt t q hwf 0 i p hscan
      intro hall
      have hmem : QMsg.objMsg (t ++ "/done") p ∈ q := List.get?_mem hget
      have := hall _ hmem
      rw [claims] at this
      simp at this
    | rejectAt i p =>
      have hres : consume t q = .rejected p (q.eraseIdx i) := by unfold consume; rw [hscan]
      rw [hres]
      refine iff_of_false (by simp) ?_
      obtain ⟨k, _, hget, _⟩ := scanQueueFrom_rejectAt t q hwf 0 i p hscan
      intro hall
      have hmem : QMsg.objMsg (t ++ "/error") p ∈ q := List.get?_mem hget
      have := hall _ hmem
      rw [claims] at this
      simp at this
    | crash => exact absurd hscan (scanQueueFrom_ne_crash t q hwf 0)
  · intro p q' hc
    unfold consume at hc
    cases hscan : scanQueue t q with
    | none => rw [hscan] at hc; exact absurd hc (by simp)
    | resolveAt i p0 =>
      rw [hscan] at hc
      injection hc with hp hq'
      subst hp
      obtain ⟨k, hk, hget, _⟩ := scanQueueFrom_resolveAt t q hwf 0 i p0 hscan
      have hik : i = k := by omega
      subst hik
      exact ⟨i, hget, hq'.symm⟩
    | rejectAt i p0 => rw [hscan] at hc; exact absurd hc (by simp)
    | crash => rw [hscan] at hc; exact absurd hc (by simp)
  · intro p q' hc
    unfold consume at hc
    cases hscan : scanQueue t q with
    | none => rw [hscan] at hc; exact absurd hc (by simp)
    | resolveAt i p0 => rw [hscan] at hc; exact absurd hc (by simp)
    | rejectAt i p0 =>
      rw [hscan] at hc
      injection hc with hp hq'
      subst hp
      obtain ⟨k, hk, hget, _⟩ := scanQueueFrom_rejectAt t q hwf 0 i p0 hscan
      have hik : i = k := by omega
      subst hik
      exact ⟨i, hget, hq'.symm⟩
    | crash => rw [hscan] at hc; exact absurd hc (by simp)

theorem c1_witness :
    wfQ [QMsg.objMsg "startAll/done" (0 : Nat), QMsg.objMsg "start/done" 7]
    ∧ consume "start" [QMsg.objMsg "startAll/done" (0 : Nat), QMsg.objMsg "start/done" 7]
        ≠ .crash :=
  ⟨by decide,
    (c1_invoke_exact_type_match "start"
      [QMsg.objMsg "startAll/done" (0 : Nat), QMsg.objMsg "start/done" 7]
      (by decide)).2.2.2⟩

/-- C8: Every pending message is consumed by at most one `invoke`: when a
consume tick claims a message, it claims the first message in queue order
whose type matches the request, exactly that one message is removed from the
queue (the others remain, in order), and the queue shrinks by exactly one. -/
theorem c8_first_match_removed_once {α : Type} (t : String) (q : List (QMsg α)) (hwf : wfQ q)
    (p : α) (q' : List (QMsg α))
    (hc : consume t q = .resolved p q' ∨ consume t q = .rejected p q') :
    ∃ i m, q.get? i = some m ∧ claims t m = true
      ∧ (∀ j m', j < i → q.get? j = some m' → claims t m' = false)
      ∧ q' = q.take i ++ q.drop (i + 1)
      ∧ q'.length + 1 = q.length := by
  have main : ∀ (i₀ : Nat) (ty : String),
      scanQueue t q = .resolveAt i₀ p ∧ ty = t ++ "/done" ∨
      scanQueue t q = .rejectAt i₀ p ∧ ty = t ++ "/error" →
      q' = q.eraseIdx i₀ →
      ∃ i m, q.get? i = some m ∧ claims t m = true
        ∧ (∀ j m', j < i → q.get? j = some m' → claims t m' = false)
        ∧ q' = q.take i ++ q.drop (i + 1)
        ∧ q'.length + 1 = q.length := by
    rintro i₀ ty (⟨hscan, hty⟩ | ⟨hscan, hty⟩) hq'
    · obtain ⟨k, hk, hget, hbefore⟩ := scanQueueFrom_resolveAt t q hwf 0 i₀ p hscan
      have hk0 : i₀ = k := by omega
      subst hk0
      refine ⟨i₀, _, hget, by rw [claims]; simp, hbefore, ?_, ?_⟩
      · rw [hq', List.eraseIdx_eq_take_drop_succ]
      · rw [hq']
        exact List.length_eraseIdx_add_one (List.get?_eq_some.mp hget).1
    · obtain ⟨k, hk, hget, hbefore⟩ := scanQueueFrom_rejectAt t q hwf 0 i₀ p hscan
      have hk0 : i₀ = k := by omega
      subst hk0
      refine ⟨i₀, _, hget, by rw [claims]; simp, hbefore, ?_, ?_⟩
      · rw [hq', List.eraseIdx_eq_take_drop_succ]
      · rw [hq']
        exact List.length_eraseIdx_add_one (List.get?_eq_some.mp hget).1
  rcases hc with hc | hc
  · unfold consume at hc
    cases hscan : scanQueue t q with
    | none => rw [hscan] at hc; exact absurd hc (by simp)
    | resolveAt i p0 =>
      rw [hscan] at hc
      injection hc with hp hq'
      subst hp
      exact main i (t ++ "/done") (Or.inl ⟨hscan, rfl⟩) hq'.symm
    | rejectAt i p0 => rw [hscan] at hc; exact absurd hc (by simp)
    | crash => rw [hscan] at hc; exact absurd hc (by simp)
  · unfold consume at hc
    cases hscan : scanQueue t q with
    | none => rw [hscan] at hc; exact absurd hc (by simp)
    | resolveAt i p0 => rw [hscan] at hc; exact absurd hc (by simp)
    | rejectAt i p0 =>
      rw [hscan] at hc
      injection hc with hp hq'
      subst hp
      exact main i (t ++ "/error") (Or.inr ⟨hscan, rfl⟩) hq'.symm
    | crash => rw [hscan] at hc; exact absurd hc (by simp)

theorem c8_witness :
    wfQ [QMsg.objMsg "other" (1 : Nat), QMsg.objMsg "start/error" 5, QMsg.objMsg "start/done" 6]
    ∧ ∃ i m,
      [QMsg.objMsg "other" (1 : Nat), QMsg.objMsg "start/error" 5,
        QMsg.objMsg "start/done" 6].get? i = some m ∧ claims "start" m = true
      ∧ (∀ j m', j < i →
          [QMsg.objMsg "other" (1 : Nat), QMsg.objMsg "start/error" 5,
            QMsg.objMsg "start/done" 6].get? j = some m' → claims "start" m' = false)
      ∧ [QMsg.objMsg "other" (1 : Nat), QMsg.objMsg "start/done" 6] =
          [QMsg.objMsg "other" (1 : Nat), QMsg.objMsg "start/error" 5,
            QMsg.objMsg "start/done" 6].take i ++
          [QMsg.objMsg "other" (1 : Nat), QMsg.objMsg "start/error" 5,
            QMsg.objMsg "start/done" 6].drop (i + 1)
      ∧ ([QMsg.objMsg "other" (1 : Nat), QMsg.objMsg "start/done" 6] : List (QMsg Nat)).length
          + 1 =
          ([QMsg.objMsg "other" (1 : Nat), QMsg.objMsg "start/error" 5,
            QMsg.objMsg "start/done" 6] : List (QMsg Nat)).length :=
  ⟨by decide,
    c8_first_match_removed_once "start"
      [QMsg.objMsg "other" (1 : Nat), QMsg.objMsg "start/error" 5, QMsg.objMsg "start/done" 6]
      (by decide) 5 [QMsg.objMsg "other" 1, QMsg.objMsg "start/done" 6]
      (Or.inr (by decide))⟩

/-- C6 counterexample: an inbound worker message that is an object but lacks
a string `type` field (for example `{ payload: ... }`, or `null`, both of JS
type `'object'`) is not dropped by the channel handler — it is pushed onto
the queue — and the scan of an outstanding `start` request then throws on
`message.type.indexOf`, crashing the queue-scanning code. -/
theorem c6_counterexample :
    onMessage (Inbound.obj QMsg.objNoType) ([] : List (QMsg Nat)) = [QMsg.objNoType]
    ∧ consume "start" [QMsg.objNoType (α := Nat)] = ConsumeRes.crash := by
  decide

/-- C6 (amended): inbound worker values that are not objects (JS
`typeof message !== 'object'`) are silently dropped by the channel layer —
the queue is unchanged, so they never crash the scan or surface to any
caller; and on a queue whose messages all carry a string `type` field the
queue scan never crashes.  (An object message without a string `type` field,
however, is enqueued and crashes the scan when reached; see the
counterexample.) -/
theorem c6_amended_drop_nonobjects {α : Type} (t : String) (q : List (QMsg α)) (hwf : wfQ q) :
    onMessage Inbound.nonObject q = q ∧ consume t q ≠ ConsumeRes.crash :=
  ⟨rfl, consume_ne_crash t q hwf⟩

/-! ## Lemmas about the subprocesses map -/

theorem mapGet_mapSet_self (id : String) (e : Entry) (l : List (String × Entry)) :
    mapGet id (mapSet id e l) = some e := by
  induction l with
  | nil => simp [mapSet, mapGet]
  | cons kv rest ih =>
    obtain ⟨k, e'⟩ := kv
    simp only [mapSet]
    by_cases hk : k = id
    · rw [if_pos hk]
      simp [mapGet, hk]
    · rw [if_neg hk]
      simp only [mapGet]
      rw [if_neg hk, ih]

theorem mapGet_mapSet_ne (id id' : String) (e : Entry) (l : List (String × Entry))
    (h : id' ≠ id) : mapGet id' (mapSet id e l) = mapGet id' l := by
  induction l with
  | nil =>
    simp only [mapSet, mapGet]
    rw [if_neg (Ne.symm h)]
  | cons kv rest ih =>
    obtain ⟨k, e'⟩ := kv
    simp only [mapSet]
    by_cases hk : k = id
    · rw [if_pos hk]
      simp only [mapGet]
      rw [if_neg (by rw [hk]; exact Ne.symm h), if_neg (by rw [hk]; exact Ne.symm h)]
    · rw [if_neg hk]
      simp only [mapGet]
      by_cases hk' : k = id'
      · rw [if_pos hk', if_pos hk']
      · rw [if_neg hk', if_neg hk', ih]

theorem mapGet_mapDelete_ne (id id' : String) (l : List (String × Entry)) (h : id' ≠ id) :
    mapGet id' (mapDelete id l) = mapGet id' l := by
  induction l with
  | nil => rfl
  | cons kv rest ih =>
    obtain ⟨k, e⟩ := kv
    simp only [mapDelete]
    by_cases hk : k = id
    · rw [if_pos hk]
      simp only [mapGet]
      rw [if_neg (by rw [hk]; exact Ne.symm h)]
    · rw [if_neg hk]
      simp only [mapGet]
      by_cases hk' : k = id'
      · rw [if_pos hk', if_pos hk']
      · rw [if_neg hk', if_neg hk', ih]

theorem mapGet_eq_none_iff (id : String) (l : List (String × Entry)) :
    mapGet id l = none ↔ id ∉ l.map Prod.fst := by
  induction l with
  | nil => simp [mapGet]
  | cons kv rest ih =>
    obtain ⟨k, e⟩ := kv
    simp only [mapGet, List.map_cons, List.mem_cons]
    by_cases hk : k = id
    · rw [if_pos hk]
      simp [hk]
    · rw [if_neg hk, ih]
      have : ¬id = k := fun hc => hk hc.symm
      simp [this]

theorem mapDelete_sublist (id : String) (l : List (String × Entry)) :
    List.Sublist (mapDelete id l) l := by
  induction l with
  | nil => simp [mapDelete]
  | cons kv rest ih =>
    obtain ⟨k, e⟩ := kv
    simp only [mapDelete]
    by_cases hk : k = id
    · rw [if_pos hk]
      exact List.sublist_cons_self _ _
    · rw [if_neg hk]
      exact ih.cons₂ _

theorem mapGet_mapDelete_self (id : String) (l : List (String × Entry))
    (h : (l.map Prod.fst).Nodup) : mapGet id (mapDelete id l) = none := by
  induction l with
  | nil => rfl
  | cons kv rest ih =>
    obtain ⟨k, e⟩ := kv
    simp only [List.map_cons, List.nodup_cons] at h
    simp only [mapDelete]
    by_cases hk : k = id
    · rw [if_pos hk]
      rw [mapGet_eq_none_iff]
      rw [hk] at h
      exact h.1
    · rw [if_neg hk]
      simp only [mapGet]
      rw [if_neg hk]
      exact ih h.2

theorem keys_mapSet_of_mem (id : String) (e : Entry) (l : List (String × Entry))
    (h : id ∈ l.map Prod.fst) : (mapSet id e l).map Prod.fst = l.map Prod.fst := by
  induction l with
  | nil => simp at h
  | cons kv rest ih =>
    obtain ⟨k, e'⟩ := kv
    simp only [mapSet]
    by_cases hk : k = id
    · rw [if_pos hk]
      simp
    · rw [if_neg hk]
      simp only [List.map_cons]
      have hmem : id ∈ rest.map Prod.fst := by
        simp only [List.map_cons, List.mem_cons] at h
        rcases h with h | h
        · exact absurd h.symm hk
        · exact h
      rw [ih hmem]

theorem keys_mapSet_of_not_mem (id : String) (e : Entry) (l : List (String × Entry))
    (h : id ∉ l.map Prod.fst) : (mapSet id e l).map Prod.fst = l.map Prod.fst ++ [id] := by
  induction l with
  | nil => simp [mapSet]
  | cons kv rest ih =>
    obtain ⟨k, e'⟩ := kv
    simp only [List.map_cons, List.mem_cons] at h
    push_neg at h
    simp only [mapSet]
    by_cases hk : k = id
    · exact absurd hk.symm h.1
    · rw [if_neg hk]
      simp only [List.map_cons, List.cons_append]
      rw [ih h.2]

theorem nodup_keys_mapSet (id : String) (e : Entry) (l : List (String × Entry))
    (h : (l.map Prod.fst).Nodup) : ((mapSet id e l).map Prod.fst).Nodup := by
  by_cases hm : id ∈ l.map Prod.fst
  · rw [keys_mapSet_of_mem id e l hm]
    exact h
  · rw [keys_mapSet_of_not_mem id e l hm]
    simp [List.nodup_append, h, hm]

theorem nodup_keys_mapDelete (id : String) (l : List (String × Entry))
    (h : (l.map Prod.fst).Nodup) : ((mapDelete id l).map Prod.fst).Nodup :=
  h.sublist ((mapDelete_sublist id l).map Prod.fst)

theorem filter_key_length_le (id : String) (l : List (String × Entry))
    (h : (l.map Prod.fst).Nodup) : (l.filter fun kv => kv.1 = id).length ≤ 1 := by
  induction l with
  | nil => simp
  | cons kv rest ih =>
    obtain ⟨k, e⟩ := kv
    simp only [List.map_cons, List.nodup_cons] at h
    by_cases hk : k = id
    · subst hk
      have hnil : (rest.filter fun kv => kv.1 = k) = [] := by
        rw [List.filter_eq_nil_iff]
        intro kv hkv
        simp only [decide_eq_true_eq]
        intro hkv1
        exact h.1 (hkv1 ▸ List.mem_map_of_mem Prod.fst hkv)
      simp [List.filter_cons, hnil]
    · simpa [List.filter_cons, hk] using ih h.2

theorem c6_witness :
    wfQ [QMsg.objMsg "start/done" (3 : Nat)]
    ∧ onMessage Inbound.nonObject [QMsg.objMsg "start/done" (3 : Nat)] =
        [QMsg.objMsg "start/done" (3 : Nat)]
    ∧ consume "stop" [QMsg.objMsg "start/done" (3 : Nat)] ≠ ConsumeRes.crash :=
  ⟨by decide,
    (c6_amended_drop_nonobjects "stop" [QMsg.objMsg "start/done" (3 : Nat)] (by decide)).1,
    (c6_amended_drop_nonobjects "stop" [QMsg.objMsg "start/done" (3 : Nat)] (by decide)).2⟩

/-! ## Lemmas about the per-id lifecycle chain -/

theorem noTombToAbsent_same (a : EState) : noTombToAbsent a a := by
  rintro ⟨h1, h2⟩
  rw [h1] at h2
  cases h2

theorem noTombToAbsent_of_left_active (h : HandleId) (b : EState) :
    noTombToAbsent (.active h) b := by
  rintro ⟨h1, _⟩
  cases h1

theorem noTombToAbsent_of_right_active (a : EState) (h : HandleId) :
    noTombToAbsent a (.active h) := by
  rintro ⟨_, h2⟩
  cases h2

theorem viewId_startPhase1_self (id : String) (st : Registry) :
    ∃ h, viewId id (startPhase1 id st) = .active h := by
  unfold startPhase1
  split
  · next h heq => exact ⟨h, by simp [viewId, heq]⟩
  · exact ⟨st.next, by simp [viewId, mapGet_mapSet_self]⟩

theorem viewId_startPhase1_ne (id id' : String) (st : Registry) (h : id' ≠ id) :
    viewId id' (startPhase1 id st) = viewId id' st := by
  unfold startPhase1
  split
  · rfl
  · simp only [viewId, mapGet_mapSet_ne id id' _ _ h]

theorem fullChain_head {α : Type} (ops : List (Op α)) (st : Registry) :
    ∃ l, fullChain ops st = st :: l := by
  cases ops with
  | nil => exact ⟨[], rfl⟩
  | cons op rest => cases op <;> exact ⟨_, rfl⟩

theorem noTombToAbsent_startPhase1 (id sid : String) (st : Registry) :
    noTombToAbsent (viewId id st) (viewId id (startPhase1 sid st)) := by
  by_cases hid : id = sid
  · subst hid
    obtain ⟨h, hv⟩ := viewId_startPhase1_self id st
    rw [hv]
    exact noTombToAbsent_of_right_active _ h
  · rw [viewId_startPhase1_ne sid id st hid]
    exact noTombToAbsent_same _

theorem noTombToAbsent_startPhase2 {α : Type} (r : WorkerReply α) (id sid : String)
    (st : Registry) :
    noTombToAbsent (viewId id (startPhase1 sid st))
      (viewId id (startPhase2 r sid (startPhase1 sid st)).1) := by
  cases r with
  | done p => exact noTombToAbsent_same _
  | error e =>
    by_cases hid : id = sid
    · subst hid
      obtain ⟨h, hv⟩ := viewId_startPhase1_self id st
      rw [hv]
      exact noTombToAbsent_of_left_active h _
    · have hv : viewId id (startPhase2 (WorkerReply.error e) sid (startPhase1 sid st)).1 =
          viewId id (startPhase1 sid st) := by
        simp only [startPhase2, viewId, mapGet_mapDelete_ne sid id _ hid]
      rw [hv]
      exact noTombToAbsent_same _

theorem noTombToAbsent_stop {α : Type} (r : WorkerReply α) (id sid : String) (st : Registry) :
    noTombToAbsent (viewId id st) (viewId id (stop r sid st).1) := by
  unfold stop
  split
  · next h heq =>
    cases r with
    | done p =>
      by_cases hid : id = sid
      · subst hid
        simp only [viewId, heq]
        exact noTombToAbsent_of_left_active h _
      · have hv : viewId id { st with entries := mapSet sid Entry.tomb st.entries } =
            viewId id st := by
          simp only [viewId, mapGet_mapSet_ne sid id _ _ hid]
        simp only [hv]
        exact noTombToAbsent_same _
    | error e => exact noTombToAbsent_same _
  · next heq => exact noTombToAbsent_same _

theorem chain_noTombToAbsent {α : Type} (id : String) (ops : List (Op α)) (st : Registry) :
    List.Chain' noTombToAbsent ((fullChain ops st).map (viewId id)) := by
  induction ops generalizing st with
  | nil => simp [fullChain]
  | cons op rest ih =>
    cases op with
    | opStart r sid =>
      obtain ⟨l, hl⟩ := fullChain_head rest (start r sid st).1
      have hch := ih (start r sid st).1
      rw [hl] at hch
      simp only [List.map_cons] at hch
      simp only [fullChain, hl, List.map_cons]
      rw [List.chain'_cons, List.chain'_cons]
      exact ⟨noTombToAbsent_startPhase1 id sid st, noTombToAbsent_startPhase2 r id sid st, hch⟩
    | opStop r sid =>
      obtain ⟨l, hl⟩ := fullChain_head rest (applyOp (.opStop r sid) st)
      have hch := ih (applyOp (.opStop r sid) st)
      rw [hl] at hch
      simp only [List.map_cons] at hch
      simp only [fullChain, hl, List.map_cons]
      rw [List.chain'_cons]
      exact ⟨noTombToAbsent_stop r id sid st, hch⟩
    | opGetServices =>
      obtain ⟨l, hl⟩ := fullChain_head rest (applyOp (α := α) .opGetServices st)
      have hch := ih (applyOp (α := α) .opGetServices st)
      rw [hl] at hch
      simp only [List.map_cons] at hch
      simp only [fullChain, hl, List.map_cons]
      rw [List.chain'_cons]
      exact ⟨noTombToAbsent_same _, hch⟩
    | opGetServiceInfo sid =>
      obtain ⟨l, hl⟩ := fullChain_head rest (applyOp (α := α) (.opGetServiceInfo sid) st)
      have hch := ih (applyOp (α := α) (.opGetServiceInfo sid) st)
      rw [hl] at hch
      simp only [List.map_cons] at hch
      simp only [fullChain, hl, List.map_cons]
      rw [List.chain'_cons]
      exact ⟨noTombToAbsent_same _, hch⟩
    | opGetMetrics sid kind =>
      obtain ⟨l, hl⟩ := fullChain_head rest (applyOp (α := α) (.opGetMetrics sid kind) st)
      have hch := ih (applyOp (α := α) (.opGetMetrics sid kind) st)
      rw [hl] at hch
      simp only [List.map_cons] at hch
      simp only [fullChain, hl, List.map_cons]
      rw [List.chain'_cons]
      exact ⟨noTombToAbsent_same _, hch⟩

theorem nodup_keys_startPhase1 (id : String) (st : Registry) (h : (keys st).Nodup) :
    (keys (startPhase1 id st)).Nodup := by
  unfold startPhase1
  split
  · exact h
  · exact nodup_keys_mapSet id _ st.entries h

theorem nodup_keys_start {α : Type} (r : WorkerReply α) (id : String) (st : Registry)
    (h : (keys st).Nodup) : (keys (start r id st).1).Nodup := by
  unfold start startPhase2
  cases r with
  | done p => exact nodup_keys_startPhase1 id st h
  | error e => exact nodup_keys_mapDelete id _ (nodup_keys_startPhase1 id st h)

theorem nodup_keys_stop {α : Type} (r : WorkerReply α) (id : String) (st : Registry)
    (h : (keys st).Nodup) : (keys (stop r id st).1).Nodup := by
  unfold stop
  split
  · cases r with
    | done p => exact nodup_keys_mapSet id _ st.entries h
    | error e => exact h
  · exact h

theorem nodup_keys_applyOp {α : Type} (op : Op α) (st : Registry) (h : (keys st).Nodup) :
    (keys (applyOp op st)).Nodup := by
  cases op with
  | opStart r sid => exact nodup_keys_start r sid st h
  | opStop r sid => exact nodup_keys_stop r sid st h
  | opGetServices => exact h
  | opGetServiceInfo sid => exact h
  | opGetMetrics sid kind => exact h

theorem nodup_keys_fullChain {α : Type} (ops : List (Op α)) (st : Registry)
    (h : (keys st).Nodup) : ∀ st' ∈ fullChain ops st, (keys st').Nodup := by
  induction ops generalizing st with
  | nil =>
    intro st' hst'
    simp only [fullChain, List.mem_singleton] at hst'
    exact hst' ▸ h
  | cons op rest ih =>
    intro st' hst'
    cases op with
    | opStart r sid =>
      simp only [fullChain, List.mem_cons] at hst'
      rcases hst' with rfl | rfl | hst'
      · exact h
      · exact nodup_keys_startPhase1 sid st h
      · exact ih (start r sid st).1 (nodup_keys_start r sid st h) st' hst'
    | opStop r sid =>
      simp only [fullChain, List.mem_cons] at hst'
      rcases hst' with rfl | hst'
      · exact h
      · exact ih _ (nodup_keys_applyOp (.opStop r sid) st h) st' hst'
    | opGetServices =>
      simp only [fullChain, List.mem_cons] at hst'
      rcases hst' with rfl | hst'
      · exact h
      · exact ih _ (nodup_keys_applyOp (α := α) .opGetServices st h) st' hst'
    | opGetServiceInfo sid =>
      simp only [fullChain, List.mem_cons] at hst'
      rcases hst' with rfl | hst'
      · exact h
      · exact ih _ (nodup_keys_applyOp (α := α) (.opGetServiceInfo sid) st h) st' hst'
    | opGetMetrics sid kind =>
      simp only [fullChain, List.mem_cons] at hst'
      rcases hst' with rfl | hst'
      · exact h
      · exact ih _ (nodup_keys_applyOp (α := α) (.opGetMetrics sid kind) st h) st' hst'

theorem atMostOne_of_nodup (id : String) (st : Registry) (h : (keys st).Nodup) :
    atMostOneEntry id st :=
  filter_key_length_le id st.entries h

/-- C2: Along every sequence of completed registry operations run from the
initial empty registry, observing the map at every `await` boundary, the
entry of any ServiceId never steps from tombstoned to absent, and at every
observable state the map holds at most one entry — hence at most one live
process handle — for that id. -/
theorem c2_lifecycle_invariant {α : Type} (ops : List (Op α)) (id : String) :
    List.Chain' noTombToAbsent ((fullChain ops emptyRegistry).map (viewId id))
    ∧ ∀ st ∈ fullChain ops emptyRegistry, atMostOneEntry id st :=
  ⟨chain_noTombToAbsent id ops emptyRegistry, fun st hst =>
    atMostOne_of_nodup id st
      (nodup_keys_fullChain ops emptyRegistry (by simp [keys, emptyRegistry]) st hst)⟩

theorem c2_witness :
    List.Chain' noTombToAbsent
      ((fullChain [Op.opStart (.done (0 : Nat)) "svc1", Op.opStop (.done 0) "svc1",
        Op.opStart (.error 1) "svc1"] emptyRegistry).map (viewId "svc1"))
    ∧ ∀ st ∈ fullChain [Op.opStart (.done (0 : Nat)) "svc1", Op.opStop (.done 0) "svc1",
        Op.opStart (.error 1) "svc1"] emptyRegistry, atMostOneEntry "svc1" st :=
  c2_lifecycle_invariant
    [Op.opStart (.done (0 : Nat)) "svc1", Op.opStop (.done 0) "svc1",
      Op.opStart (.error 1) "svc1"] "svc1"

/-! ## Claims about the registry operations -/

/-- C3: `getServiceInfo(id)` returns status INIT when the id is absent,
status STOPPED when the id is tombstoned, and — when the id is active and
the worker's `getStatus` invoke resolves — status RUNNING merged with the
worker's `getStatus` reply. -/
theorem c3_getServiceInfo_status {α : Type} (w : Worker α) (id : String) (st : Registry) :
    (mapGet id st.entries = none → getServiceInfo w id st = .ok ⟨.INIT, none⟩)
    ∧ (mapGet id st.entries = some .tomb → getServiceInfo w id st = .ok ⟨.STOPPED, none⟩)
    ∧ (∀ h p, mapGet id st.entries = some (.active h) → w h "getStatus" = .done p →
        getServiceInfo w id st = .ok ⟨.RUNNING, some p⟩) := by
  refine ⟨?_, ?_, ?_⟩
  · intro hget
    simp [getServiceInfo, hget]
  · intro hget
    simp [getServiceInfo, hget]
  · intro h p hget hw
    simp [getServiceInfo, hget, invokeRes, hw, Except.map]

theorem c3_witness :
    getServiceInfo (fun _ _ => WorkerReply.done (5 : Nat)) "x"
        ⟨[("a", Entry.tomb), ("b", Entry.active 0)], 1⟩ = .ok ⟨.INIT, none⟩
    ∧ getServiceInfo (fun _ _ => WorkerReply.done (5 : Nat)) "a"
        ⟨[("a", Entry.tomb), ("b", Entry.active 0)], 1⟩ = .ok ⟨.STOPPED, none⟩
    ∧ getServiceInfo (fun _ _ => WorkerReply.done (5 : Nat)) "b"
        ⟨[("a", Entry.tomb), ("b", Entry.active 0)], 1⟩ = .ok ⟨.RUNNING, some 5⟩ :=
  ⟨(c3_getServiceInfo_status (fun _ _ => WorkerReply.done (5 : Nat)) "x"
      ⟨[("a", Entry.tomb), ("b", Entry.active 0)], 1⟩).1 (by decide),
    (c3_getServiceInfo_status (fun _ _ => WorkerReply.done (5 : Nat)) "a"
      ⟨[("a", Entry.tomb), ("b", Entry.active 0)], 1⟩).2.1 (by decide),
    (c3_getServiceInfo_status (fun _ _ => WorkerReply.done (5 : Nat)) "b"
      ⟨[("a", Entry.tomb), ("b", Entry.active 0)], 1⟩).2.2 0 5 (by decide) rfl⟩

/-- C5: `stop(id)` fails with the not-found error, leaving the registry and
processes untouched, when the id is absent or tombstoned; in particular
after a successful `stop(id)` a second `stop(id)` fails with the same
not-found error instead of being a no-op. -/
theorem c5_stop_not_found {α : Type} (r r' : WorkerReply α) (id : String) (st : Registry)
    (p : α) :
    (mapGet id st.entries = none → stop r id st = (st, none, .error (.notFound id)))
    ∧ (mapGet id st.entries = some .tomb → stop r id st = (st, none, .error (.notFound id)))
    ∧ (∀ h, mapGet id st.entries = some (.active h) →
        stop r' id (stop (.done p) id st).1 =
          ((stop (.done p) id st).1, none, .error (.notFound id))) := by
  refine ⟨?_, ?_, ?_⟩
  · intro hget
    simp [stop, hget]
  · intro hget
    simp [stop, hget]
  · intro h hget
    simp [stop, hget, mapGet_mapSet_self]

theorem c5_witness :
    stop (WorkerReply.done (0 : Nat)) "x" ⟨[("a", Entry.active 0)], 1⟩ =
      (⟨[("a", Entry.active 0)], 1⟩, none, .error (.notFound "x"))
    ∧ stop (WorkerReply.done (0 : Nat)) "a"
        (stop (WorkerReply.done (0 : Nat)) "a" ⟨[("a", Entry.active 0)], 1⟩).1 =
      ((stop (WorkerReply.done (0 : Nat)) "a" ⟨[("a", Entry.active 0)], 1⟩).1, none,
        .error (.notFound "a")) :=
  ⟨(c5_stop_not_found (WorkerReply.done (0 : Nat)) (WorkerReply.done 0) "x"
      ⟨[("a", Entry.active 0)], 1⟩ 0).1 (by decide),
    (c5_stop_not_found (WorkerReply.done (0 : Nat)) (WorkerReply.done 0) "a"
      ⟨[("a", Entry.active 0)], 1⟩ 0).2.2 0 (by decide)⟩

/-- C7: `getMetrics(id, kind)` on an absent or tombstoned id returns the
empty result and never throws, for every kind; on an active id each of the
five kinds dispatches to its own distinct invoke method name
(`getCPUMetrics`, `getMemoryMetrics`, `getSpeedMetrics`,
`getConnectionsMetrics`, `getTrafficMetrics`). -/
theorem c7_getMetrics_dispatch {α : Type} (w : Worker α) (id kind : String) (st : Registry) :
    ((mapGet id st.entries = none ∨ mapGet id st.entries = some .tomb) →
      getMetrics w id kind st = .ok .empty)
    ∧ (∀ h, mapGet id st.entries = some (.active h) →
        getMetrics w id "cpu" st = (invokeRes w h "getCPUMetrics").map MetricsRes.val
        ∧ getMetrics w id "memory" st = (invokeRes w h "getMemoryMetrics").map MetricsRes.val
        ∧ getMetrics w id "speed" st = (invokeRes w h "getSpeedMetrics").map MetricsRes.val
        ∧ getMetrics w id "connections" st
            = (invokeRes w h "getConnectionsMetrics").map MetricsRes.val
        ∧ getMetrics w id "traffic" st
            = (invokeRes w h "getTrafficMetrics").map MetricsRes.val)
    ∧ (["cpu", "memory", "speed", "connections", "traffic"].map metricsMethod).Nodup := by
  refine ⟨?_, ?_, by decide⟩
  · rintro (hget | hget) <;> simp [getMetrics, hget]
  · intro h hget
    refine ⟨?_, ?_, ?_, ?_, ?_⟩ <;> simp [getMetrics, hget, metricsMethod]

theorem c7_witness :
    getMetrics (fun _ _ => WorkerReply.done (9 : Nat)) "a" "cpu"
        ⟨[("a", Entry.tomb)], 1⟩ = .ok .empty
    ∧ getMetrics (fun _ _ => WorkerReply.done (9 : Nat)) "b" "traffic"
        ⟨[("a", Entry.tomb)], 1⟩ = .ok .empty
    ∧ getMetrics (fun _ _ => WorkerReply.done (9 : Nat)) "a" "cpu"
        ⟨[("a", Entry.active 0)], 1⟩ =
        (invokeRes (fun _ _ => WorkerReply.done (9 : Nat)) 0 "getCPUMetrics").map
          MetricsRes.val :=
  ⟨(c7_getMetrics_dispatch (fun _ _ => WorkerReply.done (9 : Nat)) "a" "cpu"
      ⟨[("a", Entry.tomb)], 1⟩).1 (Or.inr (by decide)),
    (c7_getMetrics_dispatch (fun _ _ => WorkerReply.done (9 : Nat)) "b" "traffic"
      ⟨[("a", Entry.tomb)], 1⟩).1 (Or.inl (by decide)),
    ((c7_getMetrics_dispatch (fun _ _ => WorkerReply.done (9 : Nat)) "a" "cpu"
      ⟨[("a", Entry.active 0)], 1⟩).2.1 0 (by decide)).1⟩

/-- C10: When `stop(id)` is called on an active service and the worker's
stop handshake fails, the call rejects with that worker error, the registry
is unchanged (the entry still holds the live handle), the underlying
process is not killed, and `getServiceInfo(id)` still reports RUNNING. -/
theorem c10_stop_error_leaves_running {α : Type} (w : Worker α) (id : String) (st : Registry)
    (h : HandleId) (e p : α) (hget : mapGet id st.entries = some (.active h))
    (hw : w h "getStatus" = .done p) :
    stop (.error e) id st = (st, none, .error (.worker e))
    ∧ getServiceInfo w id st = .ok ⟨.RUNNING, some p⟩ := by
  constructor
  · simp [stop, hget]
  · simp [getServiceInfo, hget, invokeRes, hw, Except.map]

theorem c10_witness :
    stop (WorkerReply.error (4 : Nat)) "a" ⟨[("a", Entry.active 2)], 3⟩ =
      (⟨[("a", Entry.active 2)], 3⟩, none, .error (.worker 4))
    ∧ getServiceInfo (fun _ _ => WorkerReply.done (8 : Nat)) "a"
        ⟨[("a", Entry.active 2)], 3⟩ = .ok ⟨.RUNNING, some 8⟩ :=
  c10_stop_error_leaves_running (fun _ _ => WorkerReply.done (8 : Nat)) "a"
    ⟨[("a", Entry.active 2)], 3⟩ 2 4 8 (by decide) rfl

theorem next_startPhase1_ge (id : String) (st : Registry) :
    st.next ≤ (startPhase1 id st).next := by
  unfold startPhase1
  split
  · exact Nat.le_refl _
  · exact Nat.le_succ _

/-- C4: When `start(id, config)` fails because the worker's start handshake
signals an error, the entry for `id` is removed entirely (the id reverts to
absent, so `getServiceInfo` afterwards reports INIT, not STOPPED), the
worker error is propagated to the caller, and a subsequent `start(id, _)`
whose handshake succeeds returns ok, recording a freshly spawned handle
distinct from every handle the registry held before. -/
theorem c4_start_failure_reverts_to_absent {α : Type} (w : Worker α) (id : String)
    (st : Registry) (e p : α) (hnd : (keys st).Nodup) (hb : handlesBound st) :
    (start (.error e) id st).2 = .error (.worker e)
    ∧ mapGet id (start (.error e) id st).1.entries = none
    ∧ getServiceInfo w id (start (.error e) id st).1 = .ok ⟨.INIT, none⟩
    ∧ (start (.done p) id (start (.error e) id st).1).2 = .ok ()
    ∧ ∃ h', mapGet id (start (.done p) id (start (.error e) id st).1).1.entries
          = some (.active h')
        ∧ ∀ id' h, mapGet id' st.entries = some (.active h) → h < h' := by
  have hnd1 : (keys (startPhase1 id st)).Nodup := nodup_keys_startPhase1 id st hnd
  have hnone : mapGet id (start (WorkerReply.error e) id st).1.entries = none := by
    show mapGet id (mapDelete id (startPhase1 id st).entries) = none
    exact mapGet_mapDelete_self id _ hnd1
  have hphase : startPhase1 id (start (WorkerReply.error e) id st).1 =
      { entries := mapSet id (.active (start (WorkerReply.error e) id st).1.next)
          (start (WorkerReply.error e) id st).1.entries,
        next := (start (WorkerReply.error e) id st).1.next + 1 } := by
    unfold startPhase1
    rw [hnone]
  refine ⟨rfl, hnone, ?_, rfl, ?_⟩
  · simp [getServiceInfo, hnone]
  · refine ⟨(start (WorkerReply.error e) id st).1.next, ?_, ?_⟩
    · show mapGet id (startPhase1 id (start (WorkerReply.error e) id st).1).entries
          = some (.active (start (WorkerReply.error e) id st).1.next)
      rw [hphase]
      exact mapGet_mapSet_self id _ _
    · intro id' h hget
      have h1 : h < st.next := hb id' h hget
      have h2 : st.next ≤ (startPhase1 id st).next := next_startPhase1_ge id st
      have h3 : (start (WorkerReply.error e) id st).1.next = (startPhase1 id st).next := rfl
      rw [h3]
      exact Nat.lt_of_lt_of_le h1 h2

theorem c4_witness :
    (keys (⟨[("a", Entry.tomb)], 1⟩ : Registry)).Nodup
    ∧ (start (WorkerReply.error (7 : Nat)) "a" ⟨[("a", Entry.tomb)], 1⟩).2 =
        .error (.worker 7)
    ∧ mapGet "a" (start (WorkerReply.error (7 : Nat)) "a" ⟨[("a", Entry.tomb)], 1⟩).1.entries
        = none
    ∧ getServiceInfo (fun _ _ => WorkerReply.done (0 : Nat)) "a"
        (start (WorkerReply.error (7 : Nat)) "a" ⟨[("a", Entry.tomb)], 1⟩).1 =
        .ok ⟨.INIT, none⟩
    ∧ (start (WorkerReply.done (0 : Nat)) "a"
        (start (WorkerReply.error (7 : Nat)) "a" ⟨[("a", Entry.tomb)], 1⟩).1).2 = .ok () :=
  have hc := c4_start_failure_reverts_to_absent (fun _ _ => WorkerReply.done (0 : Nat)) "a"
    ⟨[("a", Entry.tomb)], 1⟩ 7 0 (by decide)
    (by intro id h hget; by_cases hid : "a" = id <;> simp [mapGet, hid] at hget)
  ⟨by decide, hc.1, hc.2.1, hc.2.2.1, hc.2.2.2.1⟩

/-! ## Lemmas about which ids a trace can insert -/

theorem mem_keys_of_mapGet_eq_some {id : String} {l : List (String × Entry)} {e : Entry}
    (h : mapGet id l = some e) : id ∈ l.map Prod.fst := by
  by_contra hmem
  rw [← mapGet_eq_none_iff] at hmem
  rw [hmem] at h
  cases h

theorem keys_stop_subset {α : Type} (r : WorkerReply α) (id : String) (st : Registry) :
    keys (stop r id st).1 ⊆ keys st := by
  cases hget : mapGet id st.entries with
  | none =>
    have heq : (stop r id st).1 = st := by simp [stop, hget]
    rw [heq]
    exact List.Subset.refl _
  | some e =>
    cases e with
    | tomb =>
      have heq : (stop r id st).1 = st := by simp [stop, hget]
      rw [heq]
      exact List.Subset.refl _
    | active h =>
      cases r with
      | error e' =>
        have heq : (stop (WorkerReply.error e') id st).1 = st := by simp [stop, hget]
        rw [heq]
        exact List.Subset.refl _
      | done p =>
        intro a ha
        have heq : (stop (WorkerReply.done p) id st).1 =
            { st with entries := mapSet id Entry.tomb st.entries } := by simp [stop, hget]
        rw [heq] at ha
        have ha' : a ∈ (mapSet id Entry.tomb st.entries).map Prod.fst := ha
        rw [keys_mapSet_of_mem id _ _ (mem_keys_of_mapGet_eq_some hget)] at ha'
        exact ha'

theorem keys_start_subset {α : Type} (r : WorkerReply α) (id : String) (st : Registry) :
    ∀ k ∈ keys (start r id st).1, k ∈ keys st ∨ k = id := by
  have hphase : ∀ k', k' ∈ keys (startPhase1 id st) → k' ∈ keys st ∨ k' = id := by
    intro k' hk'
    unfold startPhase1 at hk'
    split at hk'
    · exact Or.inl hk'
    · have hk2 : k' ∈ (mapSet id (Entry.active st.next) st.entries).map Prod.fst := hk'
      by_cases hm : id ∈ st.entries.map Prod.fst
      · rw [keys_mapSet_of_mem id _ _ hm] at hk2
        exact Or.inl hk2
      · rw [keys_mapSet_of_not_mem id _ _ hm] at hk2
        rcases List.mem_append.mp hk2 with hk2 | hk2
        · exact Or.inl hk2
        · exact Or.inr (List.mem_singleton.mp hk2)
  intro k hk
  cases r with
  | done p => exact hphase k hk
  | error e =>
    have hsub : keys (start (WorkerReply.error e) id st).1 ⊆ keys (startPhase1 id st) := by
      show (mapDelete id (startPhase1 id st).entries).map Prod.fst ⊆ _
      exact ((mapDelete_sublist id _).map Prod.fst).subset
    exact hphase k (hsub hk)

theorem keys_runTrace_subset {α : Type} (ops : List (Op α)) (st : Registry) :
    ∀ k ∈ keys (runTrace ops st), k ∈ keys st ∨ k ∈ startIds ops := by
  induction ops generalizing st with
  | nil => exact fun k hk => Or.inl hk
  | cons op rest ih =>
    intro k hk
    rcases ih (applyOp op st) k hk with hk' | hk'
    · cases op with
      | opStart r sid =>
        rcases keys_start_subset r sid st k hk' with h | h
        · exact Or.inl h
        · right
          simp [startIds, h]
      | opStop r sid => exact Or.inl (keys_stop_subset r sid st hk')
      | opGetServices => exact Or.inl hk'
      | opGetServiceInfo sid => exact Or.inl hk'
      | opGetMetrics sid kind => exact Or.inl hk'
    · right
      cases op with
      | opStart r sid => exact List.mem_cons_of_mem sid hk'
      | opStop r sid => exact hk'
      | opGetServices => exact hk'
      | opGetServiceInfo sid => exact hk'
      | opGetMetrics sid kind => exact hk'

theorem getServicesList_ok {α : Type} (w : Worker α) (st : Registry)
    (l : List (String × Entry)) (res : List (String × SvcInfo α))
    (h : getServicesList w st l = .ok res) :
    res.map Prod.fst = l.map Prod.fst
    ∧ ∀ kv ∈ res, getServiceInfo w kv.1 st = .ok kv.2 := by
  induction l generalizing res with
  | nil =>
    simp only [getServicesList] at h
    injection h with h
    subst h
    simp
  | cons kv rest ih =>
    simp only [getServicesList] at h
    cases hinfo : getServiceInfo w kv.1 st with
    | error e =>
      rw [hinfo] at h
      cases h
    | ok info =>
      rw [hinfo] at h
      cases hrest : getServicesList w st rest with
      | error e =>
        rw [hrest] at h
        simp [Except.map] at h
      | ok res' =>
        rw [hrest] at h
        simp only [Except.map] at h
        injection h with h
        subst h
        obtain ⟨h1, h2⟩ := ih res' hrest
        refine ⟨by simp [h1], ?_⟩
        intro kv' hkv'
        rcases List.mem_cons.mp hkv' with rfl | hkv'
        · exact hinfo
        · exact h2 kv' hkv'

/-- C9: When it resolves, `getServices()` returns a mapping whose keys are
exactly the ids currently in the registry (active or tombstoned) in
insertion order, each mapped to its `getServiceInfo` result; an id never
passed to `start` anywhere in the trace does not appear. -/
theorem c9_getServices_contents {α : Type} (w : Worker α) (ops : List (Op α))
    (res : List (String × SvcInfo α))
    (h : getServices w (runTrace ops emptyRegistry) = .ok res) :
    res.map Prod.fst = keys (runTrace ops emptyRegistry)
    ∧ (∀ kv ∈ res, getServiceInfo w kv.1 (runTrace ops emptyRegistry) = .ok kv.2)
    ∧ ∀ id, id ∉ startIds ops → ∀ kv ∈ res, kv.1 ≠ id := by
  obtain ⟨h1, h2⟩ := getServicesList_ok w _ _ res h
  refine ⟨h1, h2, ?_⟩
  intro id hid kv hkv hkv1
  have hmem : kv.1 ∈ res.map Prod.fst := List.mem_map_of_mem Prod.fst hkv
  rw [h1] at hmem
  rcases keys_runTrace_subset ops emptyRegistry kv.1 hmem with hk | hk
  · simp [keys, emptyRegistry] at hk
  · exact hid (hkv1 ▸ hk)

theorem c9_witness :
    getServices (fun _ _ => WorkerReply.done (0 : Nat))
        (runTrace [Op.opStart (.done (0 : Nat)) "svc1"] emptyRegistry) =
      .ok [("svc1", ⟨.RUNNING, some 0⟩)]
    ∧ [("svc1", (⟨.RUNNING, some 0⟩ : SvcInfo Nat))].map Prod.fst =
        keys (runTrace [Op.opStart (.done (0 : Nat)) "svc1"] emptyRegistry)
    ∧ ∀ kv ∈ [("svc1", (⟨.RUNNING, some (0 : Nat)⟩ : SvcInfo Nat))],
        getServiceInfo (fun _ _ => WorkerReply.done (0 : Nat)) kv.1
          (runTrace [Op.opStart (.done (0 : Nat)) "svc1"] emptyRegistry) = .ok kv.2 :=
  have hc := c9_getServices_contents (fun _ _ => WorkerReply.done (0 : Nat))
    [Op.opStart (.done (0 : Nat)) "svc1"] [("svc1", ⟨.RUNNING, some 0⟩)] rfl
  ⟨rfl, hc.1, hc.2.1⟩

end ServiceManager
